import Mathlib

/-
Verification of the sdc11073 repository sources:
  pat/ReferenceTest/test_reference.py
  src/sdc11073/roles/patientcontextprovider.py
  src/sdc11073/namespaces.py
Each Python function is embedded as an executable Lean definition; raised
exceptions are modelled by Option results, machine integers by Nat/Int, and
the background update thread by an explicit trace-producing step function.
-/

namespace RefTest

/-- Handle of the metric container that DeviceActivity.run scans for. -/
def metricHandle : String := "numeric.ch1.vmd0"

/-- Handle of the alert-condition container that DeviceActivity.run scans for. -/
def alertHandle : String := "ac0.mds0"

/-- Handle of the SetValue operation container that DeviceActivity.run scans for. -/
def valueOpHandle : String := "numeric.ch0.vmd1_sco_0"

/-- Handle of the SetString operation container that DeviceActivity.run scans for. -/
def stringOpHandle : String := "enumstring.ch0.vmd1_sco_0"

/-- Descriptor container as used by DeviceActivity.run: only the Handle and (for
operation descriptors) the OperationTarget attributes are read by the code. -/
structure Descr where
  Handle : String
  OperationTarget : String
deriving DecidableEq

/-- models the scan `for oneContainer in descs: if oneContainer.Handle == h: x = oneContainer`
of DeviceActivity.run; repeated assignment keeps the last match. -/
def scanLast (descs : List Descr) (h : String) : Option Descr :=
  descs.foldl (fun acc d => if d.Handle = h then some d else acc) none

/-- Observable events of DeviceActivity.run: the initial metric-state transaction
that creates metric values for the two operation targets, each metric-state commit
(handle and committed value), each alert-state commit (handle and new Presence),
each read of the `running` flag, each one-second sleep, and the `return`. -/
inductive Event where
  | commitInit : Event
  | commitMetric : String → Nat → Event
  | commitAlert : String → Bool → Event
  | checkFlag : Bool → Event
  | sleep : Nat → Event
  | stop : Event
deriving DecidableEq

/-- models the inter-iteration wait `for _ in range(n): if not self.running: return; time.sleep(1)`.
`flag i` is the value of `self.running` read at the i-th flag check overall.
Returns the produced events, whether the loop keeps running, and the next check index. -/
def waitLoop (flag : Nat → Bool) : Nat → Nat → List Event × Bool × Nat
  | idx, 0 => ([], true, idx)
  | idx, n + 1 =>
    if flag idx then
      let r := waitLoop flag (idx + 1) n
      (Event.checkFlag true :: Event.sleep 1 :: r.1, r.2.1, r.2.2)
    else
      ([Event.checkFlag false, Event.stop], false, idx + 1)

/-- events of one loop iteration body: the metric commit (value `currentValue`) when the
metric container was found, then the alert commit (Presence toggled) when the
alert-condition container was found. -/
def iterationEvents (metric alert : Option String) (cv : Nat) (pres : Bool) : List Event :=
  (match metric with
   | some h => [Event.commitMetric h cv]
   | none => []) ++
  (match alert with
   | some h => [Event.commitAlert h (!pres)]
   | none => [])

/-- models the `while True` loop of DeviceActivity.run. `cv` is `currentValue`
(incremented only in the `if metric:` branch), `pres` the alert state's Presence
(toggled only in the `if alertCondition:` branch), `idx` the next flag-check index;
the wait between iterations performs 2 flag checks with a one-second sleep after each
surviving check, matching `for _ in range(2)`. `fuel` bounds the unrolling. -/
def runLoop (flag : Nat → Bool) (metric alert : Option String) :
    Nat → Nat → Bool → Nat → List Event
  | 0, _, _, _ => []
  | fuel + 1, cv, pres, idx =>
    let w := waitLoop flag idx 2
    iterationEvents metric alert cv pres ++ w.1 ++
      (if w.2.1 then
        runLoop flag metric alert fuel
          (if metric.isSome then cv + 1 else cv)
          (if alert.isSome then !pres else pres) w.2.2
      else [])

/-- models DeviceActivity.run: scan the descriptor list for the four handles, run the
initial metric-state transaction on the two operation targets (an AttributeError —
modelled as `none` — if either operation descriptor is missing), then enter the loop
with `currentValue = 0`. `initPresence` is the alert state's Presence before the loop. -/
def deviceRun (descs : List Descr) (flag : Nat → Bool) (fuel : Nat) (initPresence : Bool) :
    Option (List Event) :=
  let metric := scanLast descs metricHandle
  let alertCondition := scanLast descs alertHandle
  let valueOperation := scanLast descs valueOpHandle
  let stringOperation := scanLast descs stringOpHandle
  match valueOperation, stringOperation with
  | some _, some _ =>
      some (Event.commitInit ::
        runLoop flag (metric.map Descr.Handle) (alertCondition.map Descr.Handle)
          fuel 0 initPresence 0)
  | _, _ => none

/-- values carried by the metric-state commits of a trace, in order. -/
def metricCommitValues : List Event → List Nat
  | [] => []
  | Event.commitMetric _ v :: rest => v :: metricCommitValues rest
  | _ :: rest => metricCommitValues rest

/-- handles carried by the metric-state commits of a trace, in order. -/
def metricCommitHandles : List Event → List String
  | [] => []
  | Event.commitMetric h _ :: rest => h :: metricCommitHandles rest
  | _ :: rest => metricCommitHandles rest

/-- total seconds slept in a trace. -/
def sleepSecs : List Event → Nat
  | [] => 0
  | Event.sleep n :: rest => n + sleepSecs rest
  | _ :: rest => sleepSecs rest

/-- number of flag checks in a trace. -/
def checkCount : List Event → Nat
  | [] => 0
  | Event.checkFlag _ :: rest => 1 + checkCount rest
  | _ :: rest => checkCount rest

/-- number of state transactions (metric or alert) committed in a trace. -/
def commitCount : List Event → Nat
  | [] => 0
  | Event.commitMetric _ _ :: rest => 1 + commitCount rest
  | Event.commitAlert _ _ :: rest => 1 + commitCount rest
  | _ :: rest => commitCount rest

/-- seconds slept before the first metric-state commit of a trace. -/
def sleepUntilMetricCommit : List Event → Nat
  | [] => 0
  | Event.commitMetric _ _ :: _ => 0
  | Event.sleep n :: rest => n + sleepUntilMetricCommit rest
  | _ :: rest => sleepUntilMetricCommit rest

/-- seconds slept between the first metric-state commit of a trace and the next one. -/
def sleepBetweenCommits : List Event → Nat
  | [] => 0
  | Event.commitMetric _ _ :: rest => sleepUntilMetricCommit rest
  | _ :: rest => sleepBetweenCommits rest

/-- wait used by `Test_Reference._test_state_updates` (seconds). -/
def sleep_timer : Nat := 11

/-- per-handle minimum update count: `min_updates = sleep_timer // 5 - 1`. -/
def min_updates : Nat := sleep_timer / 5 - 1

/-- models the metric part of `_test_state_updates`: the error flag is set when no
metric update arrived at all or some handle collected fewer than `min_updates`
updates; Test 7 passes exactly when the flag stays clear. -/
def test7_passed {α : Type} (metric_updates : List (String × List α)) : Bool :=
  !(metric_updates.isEmpty || metric_updates.any fun kv => kv.2.length < min_updates)

/-- models the alert part of `_test_state_updates`: the error flag is set only when no
alert update arrived at all; a per-handle shortfall is printed but does not set the
flag. Test 8 passes exactly when the flag stays clear. -/
def test8_passed {α : Type} (alert_updates : List (String × List α)) : Bool :=
  !alert_updates.isEmpty

/-- invocation states of msg_types.InvocationState used by the tests. -/
inductive InvocationState where
  | wait
  | start
  | finished
  | failed
  | cancelled
deriving DecidableEq

/-- outcome of `fut.result(timeout=10)`: resolution with some invocation state within
the deadline, or a `futures.TimeoutError`. -/
inductive CallOutcome where
  | resolved : InvocationState → CallOutcome
  | timedOut : CallOutcome
deriving DecidableEq

/-- handle used by `_test_setstring_operation`. -/
def setst_handle : String := "string.ch0.vmd1_sco_0"

/-- handle used by `_test_setvalue_operation`. -/
def setval_handle : String := "numeric.ch0.vmd1_sco_0"

/-- models the loop of `_test_setstring_operation` over the SetString operation handles:
non-matching handles are skipped; a matching handle is called and the outcome recorded —
passed on FINISHED, failed on any other resolved state, failed on timeout. -/
def test9_loop (outcome : String → CallOutcome) : List String → List String × List String
  | [] => ([], [])
  | h :: rest =>
    let r := test9_loop outcome rest
    if h = setst_handle then
      match outcome h with
      | CallOutcome.resolved s =>
          if s = InvocationState.finished then ("### Test 9 ### passed" :: r.1, r.2)
          else (r.1, "### Test 9 ### failed" :: r.2)
      | CallOutcome.timedOut => (r.1, "### Test 9 ### failed" :: r.2)
    else r

/-- models `_test_setstring_operation`: failure when no SetString operation descriptor
exists, otherwise the loop over the found handles. -/
def test9 (setstring_ops : List String) (outcome : String → CallOutcome) :
    List String × List String :=
  if setstring_ops.length = 0 then ([], ["### Test 9 ### failed"])
  else test9_loop outcome setstring_ops

/-- models the loop of `_test_setvalue_operation`: non-matching handles are skipped;
for a matching handle the passed marker is appended after the if/else on the
invocation state, so every in-deadline resolution is recorded as passed regardless of
the state; only a timeout appends a failure. -/
def test10_loop (outcome : String → CallOutcome) : List String → List String × List String
  | [] => ([], [])
  | h :: rest =>
    let r := test10_loop outcome rest
    if h = setval_handle then
      match outcome h with
      | CallOutcome.resolved _ => ("### Test 10 ### passed" :: r.1, r.2)
      | CallOutcome.timedOut => (r.1, "### Test 10 ### failed" :: r.2)
    else r

/-- models `_test_setvalue_operation`: failure when no SetValue operation descriptor
exists, otherwise the loop over the found handles. -/
def test10 (setvalue_ops : List String) (outcome : String → CallOutcome) :
    List String × List String :=
  if setvalue_ops.length = 0 then ([], ["### Test 10 ### failed"])
  else test10_loop outcome setvalue_ops

end RefTest

namespace Roles

/-- entity of the provider mdib as used by GenericPatientContextProvider: only the
handle and the descriptor's node type are read. -/
structure Entity where
  handle : String
  node_type : String
deriving DecidableEq

/-- operation descriptor container as used by make_operation_instance: only the
Handle and OperationTarget attributes are read. -/
structure OperationDescriptor where
  Handle : String
  OperationTarget : String
deriving DecidableEq

/-- Modelled from the spec: `OperationDefinitionBase` (sdc11073.provider.operations, not
under src) — an operation handler registered for an operation handle against an
operation target ("provide handler for node-type X targeting handle H"). -/
structure OperationDefinition where
  handle : String
  operation_target_handle : String
deriving DecidableEq

/-- Modelled from the spec: `_mk_operation_from_operation_descriptor` (providerbase, not
under src) creates a new operation handler from the descriptor's handle and
operation target with the provider's `_set_context_state` handler. -/
def mk_operation_from_operation_descriptor (d : OperationDescriptor) : OperationDefinition :=
  ⟨d.Handle, d.OperationTarget⟩

/-- Modelled from the spec: the operation class obtained from
`operation_cls_getter(pm_names.SetContextStateOperationDescriptor)`, applied as
`op_cls(`opSetPatCtx`, target_handle, self._set_context_state, coded_value=None)` —
a new SetContextState operation for the given handle and target. -/
def mk_set_context_state_operation (handle target : String) : OperationDefinition :=
  ⟨handle, target⟩

/-- fields of GenericPatientContextProvider that its methods read and write:
`_patient_context_entity` (None after `__init__`) and
`_set_patient_context_operations` (empty after `__init__`). -/
structure PCProviderState where
  patient_context_entity : Option Entity
  set_patient_context_operations : List OperationDefinition
deriving DecidableEq

/-- node type `pm_names.PatientContextDescriptor`, represented by its name. -/
def PatientContextDescriptorType : String := "PatientContextDescriptor"

/-- Modelled from the spec: `self._mdib.entities.by_node_type` (not under src) is §4.1
`find_by_node_type(type) -> ordered sequence of Entity` — the entities whose
descriptor node type equals the given type, in mdib order. -/
def by_node_type (entities : List Entity) (node_type : String) : List Entity :=
  entities.filter fun e => e.node_type = node_type

/-- models GenericPatientContextProvider.init_operations: look up all entities of node
type PatientContextDescriptor and record the single one when exactly one exists;
otherwise `_patient_context_entity` keeps its `__init__` value None.
`mdib_entities` is the entity list of the provider mdib. -/
def init_operations (mdib_entities : List Entity) : PCProviderState :=
  let entities := by_node_type mdib_entities PatientContextDescriptorType
  { patient_context_entity := if entities.length = 1 then entities.head? else none
    set_patient_context_operations := [] }

/-- models GenericPatientContextProvider.make_operation_instance: when a patient-context
entity was recorded and the descriptor's OperationTarget equals its handle, create the
operation, append it to `_set_patient_context_operations` and return it; otherwise
return None with the state unchanged. -/
def make_operation_instance (st : PCProviderState) (odc : OperationDescriptor) :
    Option OperationDefinition × PCProviderState :=
  match st.patient_context_entity with
  | some e =>
    if odc.OperationTarget = e.handle then
      let pc_operation := mk_operation_from_operation_descriptor odc
      (some pc_operation,
       { st with set_patient_context_operations :=
           st.set_patient_context_operations ++ [pc_operation] })
    else (none, st)
  | none => (none, st)

/-- models PatientContextProvider.make_missing_operations: when a patient-context entity
was recorded and `_set_patient_context_operations` is empty, return the single new
SetContextState operation `opSetPatCtx` targeting the entity's handle; otherwise
return the empty list. -/
def make_missing_operations (st : PCProviderState) : List OperationDefinition :=
  match st.patient_context_entity with
  | some e =>
    if st.set_patient_context_operations.isEmpty then
      [mk_set_context_state_operation "opSetPatCtx" e.handle]
    else []
  | none => []

end Roles

namespace Ns

/-- character strings, as lists of characters so the splitting done by text_to_qname
can be reasoned about structurally. -/
abbrev Str := List Char

/-- QName of lxml.etree as used by namespaces.py: an optional namespace and a
localname. The field `ns` embeds the source attribute `namespace`. -/
structure QName where
  ns : Option Str
  localname : Str
deriving DecidableEq

/-- prefix/namespace pairs of PrefixesEnum, in declaration order (schema locations
are never read by the functions below and are omitted). -/
def prefixesEnum : List (Str × Str) := [
  ("msg".data, "http://standards.ieee.org/downloads/11073/11073-10207-2017/message".data),
  ("dom".data, "http://standards.ieee.org/downloads/11073/11073-10207-2017/participant".data),
  ("ext".data, "http://standards.ieee.org/downloads/11073/11073-10207-2017/extension".data),
  ("mdpws".data, "http://standards.ieee.org/downloads/11073/11073-20702-2016".data),
  ("sdc".data, "http://standards.ieee.org/downloads/11073/11073-20701-2018".data),
  ("wse".data, "http://schemas.xmlsoap.org/ws/2004/08/eventing".data),
  ("xsd".data, "http://www.w3.org/2001/XMLSchema".data),
  ("xsi".data, "http://www.w3.org/2001/XMLSchema-instance".data),
  ("wsa".data, "http://www.w3.org/2005/08/addressing".data),
  ("wsx".data, "http://schemas.xmlsoap.org/ws/2004/09/mex".data),
  ("dpws".data, "http://docs.oasis-open.org/ws-dd/ns/dpws/2009/01".data),
  ("wsd".data, "http://docs.oasis-open.org/ws-dd/ns/discovery/2009/01".data),
  ("s12".data, "http://www.w3.org/2003/05/soap-envelope".data),
  ("xml".data, "http://www.w3.org/XML/1998/namespace".data),
  ("wxf".data, "http://schemas.xmlsoap.org/ws/2004/09/transfer".data),
  ("wsdl".data, "http://schemas.xmlsoap.org/wsdl/".data),
  ("wsdl12".data, "http://schemas.xmlsoap.org/wsdl/soap12/".data),
  ("wsp".data, "http://www.w3.org/ns/ws-policy".data)]

/-- lookup in an association list built by a Python dict display; with pairwise
distinct keys (proved below for the maps of NamespaceHelper) first-match lookup
coincides with dict lookup. -/
def assocLookup {α β : Type} [DecidableEq α] (k : α) : List (α × β) → Option β
  | [] => none
  | (k2, v) :: rest => if k2 = k then some v else assocLookup k rest

/-- models `self._prefix_map = {x.namespace: x.prefix for x in self._lookup.values()}`. -/
def prefix_map : List (Str × Str) := prefixesEnum.map fun x => (x.2, x.1)

/-- models `self.ns_map = {x.prefix: x.namespace for x in self._lookup.values()}`. -/
def ns_map : List (Str × Str) := prefixesEnum

/-- models NamespaceHelper.doc_name_from_qname; `none` models a raised KeyError
(namespace is None or not registered). `default_ns` is the helper's `_default_ns`. -/
def doc_name_from_qname (default_ns : Option Str) (qname : QName) : Option Str :=
  if qname.ns.isSome ∧ qname.ns = default_ns then some qname.localname
  else
    match qname.ns with
    | some n =>
      match assocLookup n prefix_map with
      | some p => some (p ++ ':' :: qname.localname)
      | none => none
    | none => none

/-- models Python `text.split` at the colon character: split at every separator, keeping empty parts,
with a single empty segment for the empty string. -/
def pySplit (sep : Char) : Str → List Str
  | [] => [[]]
  | c :: rest =>
    let ps := pySplit sep rest
    if c = sep then [] :: ps
    else
      match ps with
      | [] => [[c]]
      | p :: tl => (c :: p) :: tl

/-- models Python `elements[-1]` on a nonempty list. -/
def lastD : List Str → Str
  | [] => []
  | [x] => x
  | _ :: x :: xs => lastD (x :: xs)

/-- models the module function text_to_qname; the nsmap keys are optional strings
because the computed prefix may be None; `none` models the raised KeyError. -/
def text_to_qname (text : Str) (doc_nsmap : List (Option Str × Str)) : Option QName :=
  let elements := pySplit ':' text
  let pfx : Option Str := if elements.length = 1 then none else some (elements.headD [])
  let name := lastD elements
  match assocLookup pfx doc_nsmap with
  | some nsv => some ⟨some nsv, name⟩
  | none => none

/-- the `ns_map` of default_ns_helper recast with optional keys, as consumed by
text_to_qname via `NamespaceHelper.text_to_qname` (its keys, the registered prefixes,
are never None). -/
def helper_ns_map : List (Option Str × Str) := prefixesEnum.map fun x => (some x.1, x.2)

/-- segment of a string before its first separator, or none when the separator does
not occur (the prefix as described for text_to_qname). -/
def firstSegment (sep : Char) (l : Str) : Option Str :=
  if sep ∈ l then some (l.takeWhile fun c => c != sep) else none

/-- segment of a string after its last separator (the whole string when the separator
does not occur). -/
def lastSegment (sep : Char) (l : Str) : Str :=
  (l.reverse.takeWhile fun c => c != sep).reverse

end Ns

open RefTest Roles Ns

theorem test9_loop_passed_mem (outcome : String → CallOutcome) (l : List String) :
    "### Test 9 ### passed" ∈ (test9_loop outcome l).1 ↔
      setst_handle ∈ l ∧
        outcome setst_handle = CallOutcome.resolved InvocationState.finished := by
  induction l with
  | nil => simp [test9_loop]
  | cons h rest ih =>
    by_cases hh : h = setst_handle
    · subst hh
      cases hout : outcome setst_handle with
      | resolved s =>
        by_cases hs : s = InvocationState.finished
        · subst hs
          simp [test9_loop, hout, ih]
        · simp [test9_loop, hout, hs, ih]
      | timedOut =>
        simp [test9_loop, hout, ih]
    · have hh2 : ¬ setst_handle = h := fun e => hh e.symm
      simp [test9_loop, hh, hh2, ih]

theorem test9_loop_failed_mem (outcome : String → CallOutcome) (l : List String) :
    "### Test 9 ### failed" ∈ (test9_loop outcome l).2 ↔
      setst_handle ∈ l ∧
        outcome setst_handle ≠ CallOutcome.resolved InvocationState.finished := by
  induction l with
  | nil => simp [test9_loop]
  | cons h rest ih =>
    by_cases hh : h = setst_handle
    · subst hh
      cases hout : outcome setst_handle with
      | resolved s =>
        by_cases hs : s = InvocationState.finished
        · subst hs
          simp [test9_loop, hout, ih]
        · simp [test9_loop, hout, hs, ih]
      | timedOut =>
        simp [test9_loop, hout, ih]
    · have hh2 : ¬ setst_handle = h := fun e => hh e.symm
      simp [test9_loop, hh, hh2, ih]

/-- C3: with a SetStringOperationDescriptor of handle `string.ch0.vmd1_sco_0` present in
the mirror, Test 9 records `### Test 9 ### passed` exactly when the future resolves
within the deadline with InvocationState FINISHED, and records `### Test 9 ### failed`
exactly when the future resolves in any other invocation state or the deadline expires
without resolution. -/
theorem setstring_test_passes_iff_finished (ops : List String)
    (outcome : String → CallOutcome) (hmem : setst_handle ∈ ops) :
    ("### Test 9 ### passed" ∈ (test9 ops outcome).1 ↔
      outcome setst_handle = CallOutcome.resolved InvocationState.finished) ∧
    ("### Test 9 ### failed" ∈ (test9 ops outcome).2 ↔
      outcome setst_handle ≠ CallOutcome.resolved InvocationState.finished) := by
  have hne : ops.length ≠ 0 := by
    cases ops with
    | nil => simp at hmem
    | cons a l => simp
  constructor
  · rw [test9, if_neg hne, test9_loop_passed_mem]
    tauto
  · rw [test9, if_neg hne, test9_loop_failed_mem]
    tauto

theorem setstring_test_passes_iff_finished_witness :
    (setst_handle ∈ [setst_handle]) ∧
    ("### Test 9 ### passed" ∈
        (test9 [setst_handle]
          (fun _ => CallOutcome.resolved InvocationState.finished)).1 ↔
      CallOutcome.resolved InvocationState.finished =
        CallOutcome.resolved InvocationState.finished) :=
  ⟨by decide,
   (setstring_test_passes_iff_finished [setst_handle]
      (fun _ => CallOutcome.resolved InvocationState.finished) (by decide)).1⟩

/-- C4: the SetValue test appends the passed marker for every in-deadline resolution
regardless of the invocation state — a resolution in the terminal failure state FAILED
is recorded as `### Test 10 ### passed` with no recorded failure, while an expired
deadline is recorded as a failure. This evaluates the code at the failing input. -/
theorem setvalue_test_records_failed_state_as_passed :
    test10 [setval_handle] (fun _ => CallOutcome.resolved InvocationState.failed) =
      (["### Test 10 ### passed"], []) ∧
    test10 [setval_handle] (fun _ => CallOutcome.timedOut) =
      ([], ["### Test 10 ### failed"]) := by
  constructor <;> rfl

/-- C1 counterexample: the per-handle minimum update count the test computes from the
11-second wait is `11 / 5 - 1 = 1`, not at least 2, and a handle that collected a
single metric update already passes the Test 7 check. -/
theorem min_updates_is_one_not_two :
    min_updates = 1 ∧ ¬ 2 ≤ min_updates ∧
    test7_passed [("numeric.ch1.vmd0", [(0 : Nat)])] = true := by
  refine ⟨rfl, by decide, rfl⟩

/-- C1 amended: the per-handle minimum update count the test requires is
`sleep_timer // 5 - 1 = 1`; Test 7 passes exactly when some metric update arrived and
every updated handle collected at least `min_updates = 1` updates, and Test 8 passes
exactly when some alert update arrived (the alert check enforces no per-handle
minimum). -/
theorem state_update_test_requires_one_update_per_handle {α : Type} :
    min_updates = sleep_timer / 5 - 1 ∧ min_updates = 1 ∧
    (∀ u : List (String × List α),
      test7_passed u = true ↔ u ≠ [] ∧ ∀ kv ∈ u, min_updates ≤ kv.2.length) ∧
    (∀ a : List (String × List α), test8_passed a = true ↔ a ≠ []) := by
  refine ⟨rfl, rfl, ?_, ?_⟩
  · intro u
    simp [test7_passed, List.isEmpty_iff, not_lt]
  · intro a
    simp [test8_passed, List.isEmpty_iff]

theorem state_update_test_requires_one_update_per_handle_witness :
    test7_passed [("numeric.ch1.vmd0", [(0 : Nat)])] = true :=
  ((@state_update_test_requires_one_update_per_handle Nat).2.2.1
    [("numeric.ch1.vmd0", [0])]).mpr (by decide)

/-- C5: make_operation_instance returns a newly created operation and appends it to
the provider's operation list exactly when a patient-context entity was recorded and
the descriptor's OperationTarget equals that entity's handle; in every other case it
returns None and leaves the state unchanged. -/
theorem make_operation_instance_spec (st : PCProviderState) (odc : OperationDescriptor) :
    (∀ e, st.patient_context_entity = some e → odc.OperationTarget = e.handle →
      make_operation_instance st odc =
        (some (mk_operation_from_operation_descriptor odc),
         { st with set_patient_context_operations :=
             st.set_patient_context_operations ++
               [mk_operation_from_operation_descriptor odc] })) ∧
    ((¬ ∃ e, st.patient_context_entity = some e ∧ odc.OperationTarget = e.handle) →
      make_operation_instance st odc = (none, st)) := by
  constructor
  · intro e he ht
    simp [make_operation_instance, he, ht]
  · intro hno
    match hst : st.patient_context_entity with
    | none => simp [make_operation_instance, hst]
    | some e =>
      have : odc.OperationTarget ≠ e.handle := fun ht => hno ⟨e, hst, ht⟩
      simp [make_operation_instance, hst, this]

theorem make_operation_instance_spec_witness :
    make_operation_instance
        ⟨some ⟨"pc0", PatientContextDescriptorType⟩, []⟩ ⟨"op0", "pc0"⟩ =
      (some ⟨"op0", "pc0"⟩,
       ⟨some ⟨"pc0", PatientContextDescriptorType⟩, [⟨"op0", "pc0"⟩]⟩) :=
  (make_operation_instance_spec
      ⟨some ⟨"pc0", PatientContextDescriptorType⟩, []⟩ ⟨"op0", "pc0"⟩).1
    ⟨"pc0", PatientContextDescriptorType⟩ rfl rfl

/-- C6: make_missing_operations returns exactly one SetContextState operation
(`opSetPatCtx`) targeting the recorded patient-context entity's handle when that
entity exists and no set-patient-context operation was previously created, and the
empty list in every other case. -/
theorem make_missing_operations_spec (st : PCProviderState) :
    (∀ e, st.patient_context_entity = some e →
      st.set_patient_context_operations = [] →
      make_missing_operations st =
        [mk_set_context_state_operation "opSetPatCtx" e.handle]) ∧
    (st.patient_context_entity = none ∨ st.set_patient_context_operations ≠ [] →
      make_missing_operations st = []) := by
  constructor
  · intro e he hops
    simp [make_missing_operations, he, hops]
  · rintro (hnone | hops)
    · simp [make_missing_operations, hnone]
    · match hst : st.patient_context_entity with
      | none => simp [make_missing_operations, hst]
      | some e =>
        have : st.set_patient_context_operations.isEmpty = false := by
          simpa [List.isEmpty_iff] using hops
        simp [make_missing_operations, hst, this]

theorem make_missing_operations_spec_witness :
    make_missing_operations ⟨some ⟨"pc0", PatientContextDescriptorType⟩, []⟩ =
      [mk_set_context_state_operation "opSetPatCtx" "pc0"] :=
  (make_missing_operations_spec ⟨some ⟨"pc0", PatientContextDescriptorType⟩, []⟩).1
    ⟨"pc0", PatientContextDescriptorType⟩ rfl rfl

/-- C10: init_operations records a patient-context entity only when the mdib contains
exactly one entity of node type PatientContextDescriptor; with zero or two-or-more
such entities no entity is recorded, make_operation_instance then returns None
unchanged for every descriptor, and make_missing_operations returns the empty list. -/
theorem init_operations_requires_unique_patient_context (mdib_entities : List Entity) :
    ((by_node_type mdib_entities PatientContextDescriptorType).length ≠ 1 →
      (init_operations mdib_entities).patient_context_entity = none ∧
      (∀ odc, make_operation_instance (init_operations mdib_entities) odc =
        (none, init_operations mdib_entities)) ∧
      make_missing_operations (init_operations mdib_entities) = []) ∧
    ((init_operations mdib_entities).patient_context_entity.isSome →
      (by_node_type mdib_entities PatientContextDescriptorType).length = 1) := by
  constructor
  · intro hlen
    have hent : (init_operations mdib_entities).patient_context_entity = none := by
      simp [init_operations, hlen]
    refine ⟨hent, ?_, ?_⟩
    · intro odc
      simp [make_operation_instance, hent]
    · simp [make_missing_operations, hent]
  · intro hsome
    by_contra hlen
    simp [init_operations, hlen] at hsome

theorem init_operations_requires_unique_patient_context_witness :
    ((by_node_type [] PatientContextDescriptorType).length ≠ 1) ∧
    (init_operations []).patient_context_entity = none :=
  ⟨by decide, ((init_operations_requires_unique_patient_context []).1 (by decide)).1⟩

theorem runLoop_true_succ (metric alert : Option String) (fuel cv idx : Nat) (pres : Bool) :
    runLoop (fun _ => true) metric alert (fuel + 1) cv pres idx =
      iterationEvents metric alert cv pres ++
        [Event.checkFlag true, Event.sleep 1, Event.checkFlag true, Event.sleep 1] ++
        runLoop (fun _ => true) metric alert fuel
          (if metric.isSome then cv + 1 else cv)
          (if alert.isSome then !pres else pres) (idx + 2) := by
  simp [runLoop, waitLoop]

theorem metricCommitValues_append (a b : List Event) :
    metricCommitValues (a ++ b) = metricCommitValues a ++ metricCommitValues b := by
  induction a with
  | nil => simp [metricCommitValues]
  | cons e rest ih => cases e <;> simp [metricCommitValues, ih]

theorem metricCommitHandles_append (a b : List Event) :
    metricCommitHandles (a ++ b) = metricCommitHandles a ++ metricCommitHandles b := by
  induction a with
  | nil => simp [metricCommitHandles]
  | cons e rest ih => cases e <;> simp [metricCommitHandles, ih]

theorem metricCommitValues_runLoop_true (alert : Option String) (mh : String) :
    ∀ (fuel cv idx : Nat) (pres : Bool),
      metricCommitValues (runLoop (fun _ => true) (some mh) alert fuel cv pres idx) =
        List.range' cv fuel := by
  intro fuel
  induction fuel with
  | zero => intro cv idx pres; simp [runLoop, metricCommitValues]
  | succ f ih =>
    intro cv idx pres
    rw [runLoop_true_succ, metricCommitValues_append, metricCommitValues_append, ih]
    cases alert <;>
      simp [iterationEvents, metricCommitValues, List.range'_succ]

theorem metricCommitHandles_waitLoop (flag : Nat → Bool) :
    ∀ (n idx : Nat), metricCommitHandles (waitLoop flag idx n).1 = [] := by
  intro n
  induction n with
  | zero => intro idx; simp [waitLoop, metricCommitHandles]
  | succ k ih =>
    intro idx
    by_cases hg : flag idx
    · simp [waitLoop, hg, metricCommitHandles, ih]
    · simp [waitLoop, hg, metricCommitHandles]

theorem metricCommitHandles_runLoop (flag : Nat → Bool) (m alert : Option String) :
    ∀ (fuel cv idx : Nat) (pres : Bool),
      ∀ h ∈ metricCommitHandles (runLoop flag m alert fuel cv pres idx), m = some h := by
  intro fuel
  induction fuel with
  | zero => intro cv idx pres h hh; simp [runLoop, metricCommitHandles] at hh
  | succ f ih =>
    intro cv idx pres h hh
    rw [runLoop, metricCommitHandles_append, metricCommitHandles_append] at hh
    simp at hh
    rcases hh with hh | hh | hh
    · cases m with
      | none => cases alert <;> simp [iterationEvents, metricCommitHandles] at hh
      | some mh =>
        cases alert <;> simp [iterationEvents, metricCommitHandles] at hh <;>
          simp [hh]
    · rw [metricCommitHandles_waitLoop] at hh
      simp at hh
    · by_cases hc : (waitLoop flag idx 2).2.1
      · rw [if_pos hc] at hh
        exact ih _ _ _ h hh
      · rw [if_neg hc] at hh
        simp [metricCommitHandles] at hh

theorem sleepBetweenCommits_runLoop_true (alert : Option String) (mh : String)
    (fuel cv idx : Nat) (pres : Bool) :
    sleepBetweenCommits (runLoop (fun _ => true) (some mh) alert (fuel + 2) cv pres idx) = 2 := by
  rw [show fuel + 2 = fuel + 1 + 1 from rfl, runLoop_true_succ, runLoop_true_succ]
  cases alert <;>
    simp [iterationEvents, sleepBetweenCommits, sleepUntilMetricCommit]

theorem scanLast_handle_aux (h : String) :
    ∀ (descs : List Descr) (acc : Option Descr),
      (∀ d, acc = some d → d.Handle = h) →
      ∀ d, descs.foldl (fun acc d => if d.Handle = h then some d else acc) acc = some d →
        d.Handle = h := by
  intro descs
  induction descs with
  | nil => intro acc hacc d hd; exact hacc d hd
  | cons x rest ih =>
    intro acc hacc d hd
    rw [List.foldl_cons] at hd
    refine ih _ ?_ d hd
    intro d2 hd2
    by_cases hx : x.Handle = h
    · rw [if_pos hx] at hd2
      cases hd2
      exact hx
    · rw [if_neg hx] at hd2
      exact hacc d2 hd2

theorem scanLast_handle (descs : List Descr) (h : String) (d : Descr)
    (hd : scanLast descs h = some d) : d.Handle = h :=
  scanLast_handle_aux h descs none (by intro d2 hd2; cases hd2) d hd

theorem metricCommitValues_commitInit (t : List Event) :
    metricCommitValues (Event.commitInit :: t) = metricCommitValues t := rfl

theorem metricCommitHandles_commitInit (t : List Event) :
    metricCommitHandles (Event.commitInit :: t) = metricCommitHandles t := rfl

theorem sleepBetweenCommits_commitInit (t : List Event) :
    sleepBetweenCommits (Event.commitInit :: t) = sleepBetweenCommits t := rfl

/-- C2 counterexample: with the device activity running uninterrupted, two seconds of
sleep separate two consecutive metric-state commits — the loop waits through two
one-second sleeps between iterations, so the commit period is 2 seconds, not 1. -/
theorem metric_commit_period_is_two_seconds :
    sleepBetweenCommits
        (runLoop (fun _ => true) (some metricHandle) (some alertHandle) 2 0 false 0) = 2 ∧
    (2 : Nat) ≠ 1 := by
  constructor
  · rfl
  · decide

/-- C2 amended: while running uninterrupted, the device activity commits the metric
value sequence 0, 1, 2, … (starting at 0, increasing by exactly 1 per iteration) for
handle `numeric.ch1.vmd0`, performing one such commit once every 2 seconds rather
than once per second. -/
theorem device_commits_sequence_every_two_seconds
    (descs : List Descr) (pres : Bool) (fuel : Nat) (tr : List Event)
    (hrun : deviceRun descs (fun _ => true) fuel pres = some tr)
    (hm : (scanLast descs metricHandle).isSome) :
    metricCommitValues tr = List.range fuel ∧
    (∀ h ∈ metricCommitHandles tr, h = metricHandle) ∧
    (2 ≤ fuel → sleepBetweenCommits tr = 2) := by
  rcases hmd : scanLast descs metricHandle with _ | md
  · rw [hmd] at hm; simp at hm
  have hmh : md.Handle = metricHandle := scanLast_handle descs metricHandle md hmd
  unfold deviceRun at hrun
  rcases hvo : scanLast descs valueOpHandle with _ | vo <;> rw [hvo] at hrun <;>
    rcases hso : scanLast descs stringOpHandle with _ | so <;> rw [hso] at hrun <;>
      simp at hrun
  rw [hmd] at hrun
  subst hrun
  refine ⟨?_, ?_, ?_⟩
  · rw [metricCommitValues_commitInit]
    simp only [Option.map_some']
    rw [hmh, metricCommitValues_runLoop_true, List.range_eq_range']
  · intro h hh
    rw [metricCommitHandles_commitInit] at hh
    simp only [Option.map_some'] at hh
    rw [hmh] at hh
    have := metricCommitHandles_runLoop (fun _ => true)
      (some metricHandle) ((scanLast descs alertHandle).map Descr.Handle) fuel 0 0 pres h hh
    exact (Option.some_inj.mp this).symm
  · intro hfuel
    obtain ⟨f, rfl⟩ : ∃ f, fuel = f + 2 :=
      ⟨fuel - 2, by omega⟩
    rw [sleepBetweenCommits_commitInit]
    simp only [Option.map_some']
    rw [hmh, sleepBetweenCommits_runLoop_true]

theorem device_commits_sequence_every_two_seconds_witness :
    metricCommitValues
        (Event.commitInit ::
          runLoop (fun _ => true) (some metricHandle) (some alertHandle) 2 0 false 0) =
      List.range 2 ∧
    (∀ h ∈ metricCommitHandles
        (Event.commitInit ::
          runLoop (fun _ => true) (some metricHandle) (some alertHandle) 2 0 false 0),
      h = metricHandle) ∧
    (2 ≤ 2 → sleepBetweenCommits
        (Event.commitInit ::
          runLoop (fun _ => true) (some metricHandle) (some alertHandle) 2 0 false 0) = 2) :=
  device_commits_sequence_every_two_seconds
    [⟨"numeric.ch1.vmd0", ""⟩, ⟨"ac0.mds0", ""⟩,
     ⟨"numeric.ch0.vmd1_sco_0", "t1"⟩, ⟨"enumstring.ch0.vmd1_sco_0", "t2"⟩]
    false 2 _ (by rfl) (by rfl)

/-- C7: once the update loop reads a false `running` flag at one of its per-second
checks, it emits no further metric-state or alert-state transaction and returns —
whether the first or the second check of the inter-iteration wait reads false, the
remaining trace after the current iteration's commits is exactly the surviving checks
and sleeps followed by the failed check and the return — and during every
inter-iteration wait the flag is read at least once per second of sleeping (the slept
seconds never exceed the flag checks). -/
theorem run_stops_after_false_flag_check
    (flag : Nat → Bool) (metric alert : Option String) (fuel cv idx : Nat) (pres : Bool)
    (hstop : flag idx = false) :
    runLoop flag metric alert (fuel + 1) cv pres idx =
      iterationEvents metric alert cv pres ++ [Event.checkFlag false, Event.stop] ∧
    (∀ (g : Nat → Bool) (f2 cv2 idx2 : Nat) (p2 : Bool),
      g idx2 = true → g (idx2 + 1) = false →
      runLoop g metric alert (f2 + 1) cv2 p2 idx2 =
        iterationEvents metric alert cv2 p2 ++
          [Event.checkFlag true, Event.sleep 1, Event.checkFlag false, Event.stop]) ∧
    (∀ (g : Nat → Bool) (i n : Nat),
      sleepSecs (waitLoop g i n).1 ≤ checkCount (waitLoop g i n).1) := by
  refine ⟨?_, ?_, ?_⟩
  · simp [runLoop, waitLoop, hstop]
  · intro g f2 cv2 idx2 p2 hg1 hg2
    simp [runLoop, waitLoop, hg1, hg2]
  · intro g i n
    induction n generalizing i with
    | zero => simp [waitLoop, sleepSecs, checkCount]
    | succ k ih =>
      by_cases hg : g i
      · have := ih (i + 1)
        simp [waitLoop, hg, sleepSecs, checkCount]
        omega
      · simp [waitLoop, hg, sleepSecs, checkCount]

theorem run_stops_after_false_flag_check_witness :
    runLoop (fun _ => false) (some metricHandle) (some alertHandle) (0 + 1) 0 false 0 =
      iterationEvents (some metricHandle) (some alertHandle) 0 false ++
        [Event.checkFlag false, Event.stop] :=
  (run_stops_after_false_flag_check (fun _ => false) (some metricHandle)
    (some alertHandle) 0 0 0 false rfl).1

theorem pySplit_cons_sep (sep : Char) (rest : Str) :
    pySplit sep (sep :: rest) = [] :: pySplit sep rest := by
  simp [pySplit]

theorem pySplit_cons_ne (sep c : Char) (rest : Str) (hc : ¬ c = sep)
    (p : Str) (tl : List Str) (h : pySplit sep rest = p :: tl) :
    pySplit sep (c :: rest) = (c :: p) :: tl := by
  simp [pySplit, hc, h]

theorem pySplit_ne_nil (sep : Char) : ∀ l : Str, pySplit sep l ≠ [] := by
  intro l
  induction l with
  | nil => simp [pySplit]
  | cons c rest ih =>
    by_cases hc : c = sep
    · subst hc
      rw [pySplit_cons_sep]
      simp
    · rcases hps : pySplit sep rest with _ | ⟨p, tl⟩
      · exact absurd hps ih
      · rw [pySplit_cons_ne sep c rest hc p tl hps]
        simp

theorem pySplit_length_eq_one (sep : Char) :
    ∀ l : Str, (pySplit sep l).length = 1 ↔ sep ∉ l := by
  intro l
  induction l with
  | nil => simp [pySplit]
  | cons c rest ih =>
    by_cases hc : c = sep
    · subst hc
      rw [pySplit_cons_sep]
      simp only [List.length_cons]
      constructor
      · intro h
        have hlen : (pySplit c rest).length = 0 := by omega
        exact absurd (List.length_eq_zero.mp hlen) (pySplit_ne_nil c rest)
      · intro h
        exact absurd (List.mem_cons_self c rest) h
    · rcases hps : pySplit sep rest with _ | ⟨p, tl⟩
      · exact absurd hps (pySplit_ne_nil sep rest)
      · rw [pySplit_cons_ne sep c rest hc p tl hps]
        rw [hps] at ih
        have hsc : ¬ sep = c := fun e => hc e.symm
        simpa [hsc] using ih

theorem headD_pySplit (sep : Char) :
    ∀ l : Str, (pySplit sep l).headD [] = l.takeWhile (fun c => c != sep) := by
  intro l
  induction l with
  | nil => simp [pySplit]
  | cons c rest ih =>
    by_cases hc : c = sep
    · subst hc
      rw [pySplit_cons_sep]
      simp [List.takeWhile_cons]
    · rcases hps : pySplit sep rest with _ | ⟨p, tl⟩
      · exact absurd hps (pySplit_ne_nil sep rest)
      · rw [pySplit_cons_ne sep c rest hc p tl hps]
        rw [hps] at ih
        simp only [List.headD_cons] at ih ⊢
        rw [List.takeWhile_cons]
        simp [hc, ih]

theorem takeWhile_append_sing (p : Char → Bool) (x : Char) (hx : p x = false) :
    ∀ a : Str, ((a ++ [x]).takeWhile p) = a.takeWhile p := by
  intro a
  induction a with
  | nil => simp [List.takeWhile_cons, hx]
  | cons c a' ih =>
    by_cases hpc : p c
    · simp [List.takeWhile_cons, hpc, ih]
    · simp [List.takeWhile_cons, hpc]

theorem takeWhile_append_of_false (p : Char → Bool) :
    ∀ (a b : Str), (∃ y ∈ a, p y = false) → ((a ++ b).takeWhile p) = a.takeWhile p := by
  intro a
  induction a with
  | nil =>
    rintro b ⟨y, hy, _⟩
    simp at hy
  | cons c a' ih =>
    rintro b ⟨y, hy, hpy⟩
    by_cases hpc : p c
    · rcases List.mem_cons.mp hy with rfl | hy'
      · rw [hpy] at hpc
        simp at hpc
      · simp [List.takeWhile_cons, hpc, ih b ⟨y, hy', hpy⟩]
    · simp [List.takeWhile_cons, hpc]

theorem takeWhile_all (p : Char → Bool) :
    ∀ a : Str, (∀ y ∈ a, p y = true) → a.takeWhile p = a := by
  intro a
  induction a with
  | nil => intro _; rfl
  | cons c a' ih =>
    intro h
    rw [List.takeWhile_cons, if_pos (h c (List.mem_cons_self c a')), ih]
    intro y hy
    exact h y (List.mem_cons_of_mem c hy)

theorem lastSegment_of_not_mem (sep : Char) (l : Str) (h : sep ∉ l) :
    lastSegment sep l = l := by
  rw [lastSegment, takeWhile_all, List.reverse_reverse]
  intro y hy
  have hyl : y ∈ l := List.mem_reverse.mp hy
  have : y ≠ sep := fun e => h (e ▸ hyl)
  simp [this]

theorem lastSegment_sep_cons (sep : Char) (rest : Str) :
    lastSegment sep (sep :: rest) = lastSegment sep rest := by
  rw [lastSegment, lastSegment, List.reverse_cons, takeWhile_append_sing _ _ (by simp)]

theorem lastSegment_cons_of_mem (sep c : Char) (rest : Str) (h : sep ∈ rest) :
    lastSegment sep (c :: rest) = lastSegment sep rest := by
  rw [lastSegment, lastSegment, List.reverse_cons,
    takeWhile_append_of_false _ _ _ ⟨sep, List.mem_reverse.mpr h, by simp⟩]

theorem lastD_cons_cons (a b : Str) (t : List Str) :
    lastD (a :: b :: t) = lastD (b :: t) := rfl

theorem pySplit_of_not_mem (sep : Char) :
    ∀ b : Str, sep ∉ b → pySplit sep b = [b] := by
  intro b
  induction b with
  | nil => intro _; rfl
  | cons c rest ih =>
    intro h
    have hc : ¬ c = sep := fun e => h (e ▸ List.mem_cons_self c rest)
    have hrest : sep ∉ rest := fun hm => h (List.mem_cons_of_mem c hm)
    rw [pySplit_cons_ne sep c rest hc rest [] (ih hrest)]

theorem pySplit_append_sep (sep : Char) :
    ∀ (a b : Str), sep ∉ a → pySplit sep (a ++ sep :: b) = a :: pySplit sep b := by
  intro a
  induction a with
  | nil =>
    intro b _
    simp only [List.nil_append]
    rw [pySplit_cons_sep]
  | cons c a' ih =>
    intro b ha
    have hc : ¬ c = sep := fun e => ha (e ▸ List.mem_cons_self c a')
    have ha' : sep ∉ a' := fun hm => ha (List.mem_cons_of_mem c hm)
    rw [List.cons_append, pySplit_cons_ne sep c (a' ++ sep :: b) hc a' (pySplit sep b) (ih b ha')]

theorem lastD_pySplit (sep : Char) :
    ∀ l : Str, lastD (pySplit sep l) = lastSegment sep l := by
  intro l
  induction l with
  | nil => simp [pySplit, lastD, lastSegment]
  | cons c rest ih =>
    by_cases hc : c = sep
    · rw [hc]
      rcases hps : pySplit sep rest with _ | ⟨p, tl⟩
      · exact absurd hps (pySplit_ne_nil sep rest)
      · rw [pySplit_cons_sep, hps, lastD_cons_cons, lastSegment_sep_cons, ← hps, ih]
    · rcases hps : pySplit sep rest with _ | ⟨p, tl⟩
      · exact absurd hps (pySplit_ne_nil sep rest)
      · rw [pySplit_cons_ne sep c rest hc p tl hps]
        cases tl with
        | nil =>
          have hnm : sep ∉ rest := by
            rw [← pySplit_length_eq_one sep rest, hps]
            rfl
          have hp : p = rest := by
            have h2 := pySplit_of_not_mem sep rest hnm
            rw [hps] at h2
            exact (List.cons.injEq _ _ _ _ ▸ h2).1
          have hnm2 : sep ∉ c :: rest := by
            rw [List.mem_cons]
            push_neg
            exact ⟨fun e => hc e.symm, hnm⟩
          rw [lastSegment_of_not_mem sep _ hnm2, hp]
          rfl
        | cons q tl' =>
          have hmem : sep ∈ rest := by
            by_contra hnm
            have h2 := pySplit_of_not_mem sep rest hnm
            rw [hps] at h2
            simp at h2
          rw [hps, lastD_cons_cons] at ih
          rw [lastD_cons_cons, lastSegment_cons_of_mem sep c rest hmem]
          exact ih

theorem assocLookup_of_mem {α β : Type} [DecidableEq α] :
    ∀ (l : List (α × β)), (l.map Prod.fst).Nodup →
      ∀ (k : α) (v : β), (k, v) ∈ l → assocLookup k l = some v := by
  intro l
  induction l with
  | nil =>
    intro _ k v h
    simp at h
  | cons x rest ih =>
    intro hnd k v hmem
    obtain ⟨x1, x2⟩ := x
    rw [assocLookup]
    by_cases hk : x1 = k
    · rw [if_pos hk]
      subst hk
      rcases List.mem_cons.mp hmem with heq | hmem2
      · cases heq
        rfl
      · exfalso
        have hin : x1 ∈ rest.map Prod.fst :=
          List.mem_map.mpr ⟨(x1, v), hmem2, rfl⟩
        exact (List.nodup_cons.mp hnd).1 hin
    · rw [if_neg hk]
      rcases List.mem_cons.mp hmem with heq | hmem2
      · exact absurd (congrArg Prod.fst heq).symm hk
      · exact ih (List.nodup_cons.mp hnd).2 k v hmem2

/-- C9: text_to_qname splits the text at every colon, takes the segment before the
first colon as prefix (None when the text has no colon) and the segment after the
last colon as localname; it returns the QName of the namespace the prefix maps to
when the prefix is a key of the namespace map, and raises KeyError (modelled `none`)
exactly when it is not — no other outcome is possible. -/
theorem text_to_qname_characterization (text : Str) (m : List (Option Str × Str)) :
    text_to_qname text m =
      (assocLookup (firstSegment ':' text) m).map
        (fun nsv => ⟨some nsv, lastSegment ':' text⟩) := by
  have hpfx : (if (pySplit ':' text).length = 1 then (none : Option Str)
      else some ((pySplit ':' text).headD [])) = firstSegment ':' text := by
    by_cases hmem : ':' ∈ text
    · rw [if_neg (fun h => (pySplit_length_eq_one ':' text).mp h hmem),
        firstSegment, if_pos hmem, headD_pySplit]
    · rw [if_pos ((pySplit_length_eq_one ':' text).mpr hmem), firstSegment, if_neg hmem]
  simp only [text_to_qname]
  rw [hpfx, lastD_pySplit]
  cases assocLookup (firstSegment ':' text) m <;> simp

/-- C8: for the helper built with default_ns None, every QName whose namespace is
registered and whose localname contains no colon round-trips through
doc_name_from_qname and text_to_qname back to itself, and the registered prefixes
and registered namespaces are each pairwise distinct, so the prefix-to-namespace and
namespace-to-prefix maps of the helper are mutually inverse. -/
theorem qname_doc_name_roundtrip (n l p : Str)
    (hmem : (p, n) ∈ prefixesEnum) (hl : ':' ∉ l) :
    (doc_name_from_qname none ⟨some n, l⟩).bind
        (fun d => text_to_qname d helper_ns_map) = some ⟨some n, l⟩ ∧
    (prefixesEnum.map Prod.fst).Nodup ∧ (prefixesEnum.map Prod.snd).Nodup := by
  have hndp : (prefixesEnum.map Prod.fst).Nodup := by decide
  have hndn : (prefixesEnum.map Prod.snd).Nodup := by decide
  have hpn : ':' ∉ p := by
    have hall : ∀ q ∈ prefixesEnum.map Prod.fst, ':' ∉ q := by decide
    exact hall p (List.mem_map.mpr ⟨(p, n), hmem, rfl⟩)
  have hpm : assocLookup n prefix_map = some p := by
    apply assocLookup_of_mem
    · decide
    · exact List.mem_map.mpr ⟨(p, n), hmem, rfl⟩
  have hdoc : doc_name_from_qname none ⟨some n, l⟩ = some (p ++ ':' :: l) := by
    simp [doc_name_from_qname, hpm]
  have hsplit : pySplit ':' (p ++ ':' :: l) = [p, l] := by
    rw [pySplit_append_sep ':' p l hpn, pySplit_of_not_mem ':' l hl]
  have hlook : assocLookup (some p) helper_ns_map = some n := by
    apply assocLookup_of_mem
    · decide
    · exact List.mem_map.mpr ⟨(p, n), hmem, rfl⟩
  refine ⟨?_, hndp, hndn⟩
  rw [hdoc]
  simp [text_to_qname, hsplit, hlook, lastD]

theorem qname_doc_name_roundtrip_witness :
    (("msg".data,
        "http://standards.ieee.org/downloads/11073/11073-10207-2017/message".data)
      ∈ prefixesEnum) ∧
    (':' ∉ "Foo".data) ∧
    (doc_name_from_qname none
        ⟨some "http://standards.ieee.org/downloads/11073/11073-10207-2017/message".data,
         "Foo".data⟩).bind (fun d => text_to_qname d helper_ns_map) =
      some ⟨some "http://standards.ieee.org/downloads/11073/11073-10207-2017/message".data,
            "Foo".data⟩ :=
  ⟨by decide, by decide,
   (qname_doc_name_roundtrip
      "http://standards.ieee.org/downloads/11073/11073-10207-2017/message".data
      "Foo".data "msg".data (by decide) (by decide)).1⟩
